import Mathlib

/-!
Verification development for `chess_move_tests_generator.py`.

The script's own functions (`get_move_type`, `add_test_data`,
`read_tests_definitions` / `main` control flow) are embedded directly from
the source. The chess rules library the script calls (its "Rules Engine"
collaborator: FEN parsing, legal-move enumeration, move application,
notation rendering) is not part of the repository; those definitions are
modelled from the spec's Rules Engine interface (spec sections 4 and 6) and
are marked as such in their doc comments.

Board squares are numbered 0..63 with a1 = 0, b1 = 1, ..., h8 = 63
(file = n % 8, rank = n / 8), the numbering convention of the engine the
script imports.
-/

namespace ChessGen

/-- The two chess colors. White is the conventionally-uppercase side. -/
inductive Color where
  | white
  | black
deriving DecidableEq

/-- The opposing color. -/
def Color.other : Color → Color
  | .white => .black
  | .black => .white

/-- The six piece kinds. -/
inductive PieceKind where
  | pawn
  | knight
  | bishop
  | rook
  | queen
  | king
deriving DecidableEq

/-- A colored piece. -/
structure Piece where
  color : Color
  kind : PieceKind
deriving DecidableEq

/-- Modelled from the spec: the engine's lowercase letter of a piece kind
(`chess.piece_symbol`). -/
def piece_symbol : PieceKind → String
  | .pawn => "p"
  | .knight => "n"
  | .bishop => "b"
  | .rook => "r"
  | .queen => "q"
  | .king => "k"

/-- The uppercase letter of a piece kind. -/
def piece_symbol_upper : PieceKind → String
  | .pawn => "P"
  | .knight => "N"
  | .bishop => "B"
  | .rook => "R"
  | .queen => "Q"
  | .king => "K"

/-- Modelled from the spec: letter identity of a piece, case-coded by color
(uppercase for white, lowercase for black). -/
def Piece.symbol (p : Piece) : String :=
  match p.color with
  | .white => piece_symbol_upper p.kind
  | .black => piece_symbol p.kind

/-- File index (0..7) of a square. -/
def squareFile (s : Nat) : Nat := s % 8

/-- Rank index (0..7) of a square. -/
def squareRank (s : Nat) : Nat := s / 8

/-- The file letter a..h of a file index. -/
def fileChar (f : Nat) : Char := Char.ofNat (97 + f)

/-- The rank digit 1..8 of a rank index. -/
def rankChar (r : Nat) : Char := Char.ofNat (49 + r)

/-- Modelled from the spec: textual coordinate form of a square
(file letter + rank digit), the engine's `square_name`. -/
def square_name (s : Nat) : String :=
  String.mk [fileChar (squareFile s), rankChar (squareRank s)]

/-- A position snapshot: piece placement (64 entries, index = square),
side to move, castling rights, en-passant target square, clocks. -/
structure BoardState where
  pieces : List (Option Piece)
  turn : Color
  castleWK : Bool
  castleWQ : Bool
  castleBK : Bool
  castleBQ : Bool
  epSquare : Option Nat
  halfmove : Nat
  fullmove : Nat
deriving DecidableEq

/-- Modelled from the spec: `piece_at(Position, square) -> optional<Piece>`. -/
def piece_at (st : BoardState) (s : Nat) : Option Piece :=
  st.pieces.getD s none

/-- A move: origin square, destination square, optional promotion kind. -/
structure Move where
  from_square : Nat
  to_square : Nat
  promotion : Option PieceKind
deriving DecidableEq

/-- Whether file/rank coordinates are on the board. -/
def onBoard (f r : Int) : Bool :=
  0 ≤ f && f < 8 && 0 ≤ r && r < 8

/-- Square index from file/rank coordinates. -/
def mkSquare (f r : Int) : Nat :=
  (r * 8 + f).toNat

/-- Distance between the files of two squares. -/
def fileDist (a b : Nat) : Nat :=
  ((squareFile a : Int) - (squareFile b : Int)).natAbs

/-- Knight move deltas. -/
def knightDeltas : List (Int × Int) :=
  [(1, 2), (2, 1), (2, -1), (1, -2), (-1, -2), (-2, -1), (-2, 1), (-1, 2)]

/-- King move deltas. -/
def kingDeltas : List (Int × Int) :=
  [(1, 0), (1, 1), (0, 1), (-1, 1), (-1, 0), (-1, -1), (0, -1), (1, -1)]

/-- Diagonal ray directions. -/
def bishopDirs : List (Int × Int) :=
  [(1, 1), (1, -1), (-1, 1), (-1, -1)]

/-- Orthogonal ray directions. -/
def rookDirs : List (Int × Int) :=
  [(1, 0), (-1, 0), (0, 1), (0, -1)]

/-- Squares a pawn of the given color attacks, as deltas. -/
def pawnAttackDeltas : Color → List (Int × Int)
  | .white => [(-1, 1), (1, 1)]
  | .black => [(-1, -1), (1, -1)]

/-- On-board targets reached by single-step deltas from (f, r). -/
def stepTargets (f r : Int) (deltas : List (Int × Int)) : List Nat :=
  deltas.filterMap fun d =>
    if onBoard (f + d.1) (r + d.2) then some (mkSquare (f + d.1) (r + d.2))
    else none

/-- Squares along a sliding ray from (f, r) in direction (df, dr), stopping
at (and including) the first occupied square; `fuel` bounds the length. -/
def rayFrom (st : BoardState) (f r df dr : Int) : Nat → List Nat
  | 0 => []
  | fuel + 1 =>
    let f2 := f + df
    let r2 := r + dr
    if onBoard f2 r2 then
      let sq := mkSquare f2 r2
      match piece_at st sq with
      | none => sq :: rayFrom st f2 r2 df dr fuel
      | some _ => [sq]
    else []

/-- Squares attacked by piece `p` standing on square `s`. -/
def attacksFrom (st : BoardState) (s : Nat) (p : Piece) : List Nat :=
  let f : Int := squareFile s
  let r : Int := squareRank s
  match p.kind with
  | .pawn => stepTargets f r (pawnAttackDeltas p.color)
  | .knight => stepTargets f r knightDeltas
  | .king => stepTargets f r kingDeltas
  | .bishop => (bishopDirs.map fun d => rayFrom st f r d.1 d.2 7).flatten
  | .rook => (rookDirs.map fun d => rayFrom st f r d.1 d.2 7).flatten
  | .queen =>
    ((bishopDirs ++ rookDirs).map fun d => rayFrom st f r d.1 d.2 7).flatten

/-- All 64 square indices. -/
def squaresList : List Nat := List.range 64

/-- Whether any piece of color `c` attacks square `target`. -/
def isAttackedBy (st : BoardState) (c : Color) (target : Nat) : Bool :=
  squaresList.any fun s =>
    match piece_at st s with
    | some p => p.color == c && (attacksFrom st s p).contains target
    | none => false

/-- The square of the king of color `c`, if present. -/
def kingSquare (st : BoardState) (c : Color) : Option Nat :=
  squaresList.find? fun s => piece_at st s == some (Piece.mk c .king)

/-- Modelled from the spec: the engine's en-passant test — the destination
is the recorded en-passant target square, the mover is a pawn stepping
diagonally, and the destination square is empty. -/
def is_en_passant (st : BoardState) (m : Move) : Bool :=
  match st.epSquare with
  | some ep =>
    ep == m.to_square
      && (match piece_at st m.from_square with
          | some p => p.kind == PieceKind.pawn
          | none => false)
      && (((m.to_square : Int) - (m.from_square : Int)).natAbs == 7
          || ((m.to_square : Int) - (m.from_square : Int)).natAbs == 9)
      && (piece_at st m.to_square).isNone
  | none => false

/-- Modelled from the spec: the engine's capture test — the destination
holds an opposing piece, or the move is an en-passant capture. -/
def is_capture (st : BoardState) (m : Move) : Bool :=
  (match piece_at st m.to_square with
   | some p => p.color == st.turn.other
   | none => false)
  || is_en_passant st m

/-- Modelled from the spec: the move is a castling move — the mover is a
king travelling more than one file. -/
def is_castling (st : BoardState) (m : Move) : Bool :=
  match piece_at st m.from_square with
  | some p => p.kind == PieceKind.king && fileDist m.from_square m.to_square > 1
  | none => false

/-- Modelled from the spec: kingside castle — a castling move toward the
higher-indexed file. -/
def is_kingside_castling (st : BoardState) (m : Move) : Bool :=
  is_castling st m && squareFile m.to_square > squareFile m.from_square

/-- Modelled from the spec: queenside castle — a castling move toward the
lower-indexed file. -/
def is_queenside_castling (st : BoardState) (m : Move) : Bool :=
  is_castling st m && squareFile m.to_square < squareFile m.from_square

/-- The square of the pawn removed by an en-passant capture: one rank
behind the destination, in the moving side's direction. -/
def epCapturedSquare : Color → Nat → Nat
  | .white, t => t - 8
  | .black, t => t + 8

/-- Whether the move is a pawn advancing two ranks. -/
def isDoublePush (p : Piece) (m : Move) : Bool :=
  p.kind == PieceKind.pawn
    && ((m.to_square : Int) - (m.from_square : Int) == 16
        || (m.from_square : Int) - (m.to_square : Int) == 16)

/-- Modelled from the spec: `apply(Position, Move) -> Position` — make the
move on a snapshot, handling en-passant removal, promotion, the castling
rook hop, castling-rights loss, the en-passant target, clocks and the side
to move. -/
def applyMove (st : BoardState) (m : Move) : BoardState :=
  let mover := (piece_at st m.from_square).getD (Piece.mk st.turn .pawn)
  let ep := is_en_passant st m
  let captured := (piece_at st m.to_square).isSome || ep
  let ps1 :=
    if ep then st.pieces.set (epCapturedSquare st.turn m.to_square) none
    else st.pieces
  let placed : Option Piece :=
    match m.promotion with
    | some k => some (Piece.mk st.turn k)
    | none => some mover
  let ps2 := (ps1.set m.from_square none).set m.to_square placed
  let ps3 :=
    if mover.kind == PieceKind.king && fileDist m.from_square m.to_square > 1 then
      let rk := squareRank m.to_square * 8
      if squareFile m.to_square == 6 then
        (ps2.set (rk + 7) none).set (rk + 5) (some (Piece.mk st.turn .rook))
      else
        (ps2.set rk none).set (rk + 3) (some (Piece.mk st.turn .rook))
    else ps2
  let kingMoved (c : Color) : Bool :=
    mover.kind == PieceKind.king && st.turn == c
  let touches (sq : Nat) : Bool :=
    m.from_square == sq || m.to_square == sq
  let wk := st.castleWK && !kingMoved .white && !touches 7
  let wq := st.castleWQ && !kingMoved .white && !touches 0
  let bk := st.castleBK && !kingMoved .black && !touches 63
  let bq := st.castleBQ && !kingMoved .black && !touches 56
  let newEp :=
    if isDoublePush mover m then
      some (match st.turn with
            | .white => m.from_square + 8
            | .black => m.from_square - 8)
    else none
  let hm :=
    if mover.kind == PieceKind.pawn || captured then 0 else st.halfmove + 1
  let fm :=
    match st.turn with
    | .white => st.fullmove
    | .black => st.fullmove + 1
  BoardState.mk ps3 st.turn.other wk wq bk bq newEp hm fm

/-- The promotion kinds a pawn may choose. -/
def promotionKinds : List PieceKind :=
  [.queen, .rook, .bishop, .knight]

/-- The forward rank direction of a pawn. -/
def pawnForward : Color → Int
  | .white => 1
  | .black => -1

/-- The rank pawns of a color start on. -/
def pawnStartRank : Color → Nat
  | .white => 1
  | .black => 6

/-- The rank a pawn of a color promotes on. -/
def pawnPromoRank : Color → Nat
  | .white => 7
  | .black => 0

/-- One move per promotion kind when the destination is the promotion
rank, else the plain move. -/
def expandPromotions (c : Color) (o t : Nat) : List Move :=
  if squareRank t == pawnPromoRank c then
    promotionKinds.map fun k => Move.mk o t (some k)
  else [Move.mk o t none]

/-- Pseudo-legal moves of a pawn of color `c` on square `s`: single and
double pushes, diagonal captures with promotion expansion, and the
en-passant capture onto the recorded target square. -/
def pawnMoves (st : BoardState) (s : Nat) (c : Color) : List Move :=
  let f : Int := squareFile s
  let r : Int := squareRank s
  let d := pawnForward c
  let one :=
    if onBoard f (r + d) && (piece_at st (mkSquare f (r + d))).isNone then
      expandPromotions c s (mkSquare f (r + d))
    else []
  let two :=
    if squareRank s == pawnStartRank c
        && (piece_at st (mkSquare f (r + d))).isNone
        && (piece_at st (mkSquare f (r + 2 * d))).isNone then
      [Move.mk s (mkSquare f (r + 2 * d)) none]
    else []
  let caps := (pawnAttackDeltas c).foldr
    (fun dd acc =>
      let f2 := f + dd.1
      let r2 := r + dd.2
      if onBoard f2 r2 then
        let t := mkSquare f2 r2
        (match piece_at st t with
         | some p => if p.color == c.other then expandPromotions c s t else []
         | none => if st.epSquare == some t then [Move.mk s t none] else [])
          ++ acc
      else acc)
    []
  one ++ two ++ caps

/-- Pseudo-legal moves of a non-pawn piece: its attacked squares that do
not hold a piece of its own color. -/
def nonPawnMoves (st : BoardState) (s : Nat) (p : Piece) : List Move :=
  (attacksFrom st s p).filterMap fun t =>
    match piece_at st t with
    | some q => if q.color == p.color then none else some (Move.mk s t none)
    | none => some (Move.mk s t none)

/-- Castling moves available to the side to move: rights intact, king and
rook on their home squares, the path empty, and the king neither in check
nor crossing an attacked square. -/
def castlingMoves (st : BoardState) : List Move :=
  let c := st.turn
  let base := match c with | .white => 0 | .black => 56
  let enemy := c.other
  let kingHome := base + 4
  let kRight := match c with | .white => st.castleWK | .black => st.castleBK
  let qRight := match c with | .white => st.castleWQ | .black => st.castleBQ
  let kOk := kRight
    && piece_at st kingHome == some (Piece.mk c .king)
    && piece_at st (base + 7) == some (Piece.mk c .rook)
    && (piece_at st (base + 5)).isNone && (piece_at st (base + 6)).isNone
    && !isAttackedBy st enemy kingHome
    && !isAttackedBy st enemy (base + 5)
    && !isAttackedBy st enemy (base + 6)
  let qOk := qRight
    && piece_at st kingHome == some (Piece.mk c .king)
    && piece_at st base == some (Piece.mk c .rook)
    && (piece_at st (base + 1)).isNone && (piece_at st (base + 2)).isNone
    && (piece_at st (base + 3)).isNone
    && !isAttackedBy st enemy kingHome
    && !isAttackedBy st enemy (base + 3)
    && !isAttackedBy st enemy (base + 2)
  (if kOk then [Move.mk kingHome (base + 6) none] else [])
    ++ (if qOk then [Move.mk kingHome (base + 2) none] else [])

/-- Pseudo-legal moves of the piece on square `s`, when it belongs to the
side to move. -/
def pieceMovesAt (st : BoardState) (s : Nat) : List Move :=
  match piece_at st s with
  | some p =>
    if p.color == st.turn then
      if p.kind == PieceKind.pawn then pawnMoves st s p.color
      else nonPawnMoves st s p
    else []
  | none => []

/-- All pseudo-legal moves of the side to move. -/
def pseudoLegalMoves (st : BoardState) : List Move :=
  (squaresList.map (pieceMovesAt st)).flatten ++ castlingMoves st

/-- Whether making the move leaves the mover's own king unattacked. -/
def leavesKingSafe (st : BoardState) (m : Move) : Bool :=
  let st2 := applyMove st m
  match kingSquare st2 st.turn with
  | some ks => !isAttackedBy st2 st.turn.other ks
  | none => true

/-- Modelled from the spec: `legal_moves(Position) -> sequence<Move>` —
the Rules Engine's legal-move enumeration, in its own iteration order. -/
def legal_moves (st : BoardState) : List Move :=
  (pseudoLegalMoves st).filter (leavesKingSafe st)

/-- The piece a FEN placement letter stands for. -/
def pieceOfChar : Char → Option Piece
  | 'P' => some (Piece.mk .white .pawn)
  | 'N' => some (Piece.mk .white .knight)
  | 'B' => some (Piece.mk .white .bishop)
  | 'R' => some (Piece.mk .white .rook)
  | 'Q' => some (Piece.mk .white .queen)
  | 'K' => some (Piece.mk .white .king)
  | 'p' => some (Piece.mk .black .pawn)
  | 'n' => some (Piece.mk .black .knight)
  | 'b' => some (Piece.mk .black .bishop)
  | 'r' => some (Piece.mk .black .rook)
  | 'q' => some (Piece.mk .black .queen)
  | 'k' => some (Piece.mk .black .king)
  | _ => none

/-- Expand one FEN rank description (digits are runs of empty squares). -/
def parseRankChars : List Char → Option (List (Option Piece))
  | [] => some []
  | c :: rest =>
    if c.isDigit then
      let n := c.toNat - 48
      if 1 ≤ n && n ≤ 8 then
        (parseRankChars rest).map fun l => List.replicate n none ++ l
      else none
    else
      match pieceOfChar c with
      | some p => (parseRankChars rest).map fun l => some p :: l
      | none => none

/-- Split a character list on a separator character. -/
def splitOnChar (sep : Char) : List Char → List (List Char)
  | [] => [[]]
  | c :: rest =>
    let r := splitOnChar sep rest
    if c == sep then [] :: r
    else
      match r with
      | [] => [[c]]
      | g :: gs => (c :: g) :: gs

/-- Read a run of decimal digits, left to right, onto an accumulator. -/
def digitsToNatAux : List Char → Nat → Option Nat
  | [], acc => some acc
  | c :: rest, acc =>
    if c.isDigit then digitsToNatAux rest (acc * 10 + (c.toNat - 48))
    else none

/-- A non-empty all-digit character list as a number. -/
def digitsToNat : List Char → Option Nat
  | [] => none
  | l => digitsToNatAux l 0

/-- Parse the placement field of a FEN: 8 ranks from rank 8 down to rank 1,
each expanding to exactly 8 squares. -/
def parsePlacement (s : List Char) : Option (List (Option Piece)) :=
  let ranks := splitOnChar '/' s
  if ranks.length == 8 then
    let parsed := ranks.map parseRankChars
    if parsed.all (fun o => match o with
        | some l => l.length == 8
        | none => false) then
      some ((parsed.map fun o => o.getD []).reverse.flatten)
    else none
  else none

/-- Parse the en-passant field of a FEN. -/
def parseEp : List Char → Option (Option Nat)
  | ['-'] => some none
  | [fc, rc] =>
    let f := fc.toNat - 97
    let r := rc.toNat - 49
    if f < 8 && r < 8 then some (some (r * 8 + f)) else none
  | _ => none

/-- A parse/validation failure, as the original raises exceptions. -/
inductive Err where
  | keyError (k : String)
  | valueError (msg : String)
  | jsonDecodeError (msg : String)
deriving DecidableEq

/-- Modelled from the spec: `parse(fen) -> Position` — the engine's
`set_fen`, rejecting a malformed FEN with an error. -/
def set_fen (fen : String) : Except Err BoardState :=
  match splitOnChar ' ' fen.data with
  | [placement, turnStr, castleStr, epStr, hmStr, fmStr] =>
    match parsePlacement placement with
    | none => .error (.valueError "invalid board part")
    | some ps =>
      match (if turnStr == ['w'] then some Color.white
             else if turnStr == ['b'] then some Color.black else none) with
      | none => .error (.valueError "invalid turn part")
      | some c =>
        if castleStr == ['-'] || (castleStr ≠ []
            && castleStr.all fun ch => ch ∈ ['K', 'Q', 'k', 'q']) then
          match parseEp epStr with
          | none => .error (.valueError "invalid en passant part")
          | some ep =>
            match digitsToNat hmStr, digitsToNat fmStr with
            | some hm, some fm =>
              .ok (BoardState.mk ps c (castleStr.contains 'K')
                (castleStr.contains 'Q') (castleStr.contains 'k')
                (castleStr.contains 'q') ep hm fm)
            | _, _ => .error (.valueError "invalid clock part")
        else .error (.valueError "invalid castling part")
  | _ => .error (.valueError "wrong number of fen fields")

/-- Run-length encode one rank of the board for FEN output; `n` counts the
empty squares already seen. -/
def rankFenAux : List (Option Piece) → Nat → String
  | [], 0 => ""
  | [], n + 1 => toString (n + 1)
  | none :: rest, n => rankFenAux rest (n + 1)
  | some p :: rest, 0 => p.symbol ++ rankFenAux rest 0
  | some p :: rest, n + 1 => toString (n + 1) ++ p.symbol ++ rankFenAux rest 0

/-- The placement field of the FEN of a position. -/
def placementFen (st : BoardState) : String :=
  String.intercalate "/"
    (((List.range 8).reverse).map fun r =>
      rankFenAux ((List.range 8).map fun f => piece_at st (r * 8 + f)) 0)

/-- The castling field of the FEN of a position. -/
def castleFen (st : BoardState) : String :=
  let s := (if st.castleWK then "K" else "")
    ++ (if st.castleWQ then "Q" else "")
    ++ (if st.castleBK then "k" else "")
    ++ (if st.castleBQ then "q" else "")
  if s == "" then "-" else s

/-- Modelled from the spec: `to_fen(Position) -> string` — serialize a
position to its FEN line. -/
def board_fen (st : BoardState) : String :=
  String.intercalate " "
    [placementFen st,
     (match st.turn with | .white => "w" | .black => "b"),
     castleFen st,
     (match st.epSquare with | some s => square_name s | none => "-"),
     toString st.halfmove,
     toString st.fullmove]

/-- Modelled from the spec: the engine's board object — the current
position plus the stack of snapshots that `push` saves and `pop`
restores. -/
structure Board where
  state : BoardState
  stack : List BoardState
deriving DecidableEq

/-- Modelled from the spec: apply a move on the board, saving the pre-move
position on the snapshot stack. -/
def push (b : Board) (m : Move) : Board :=
  Board.mk (applyMove b.state m) (b.state :: b.stack)

/-- Modelled from the spec: discard the current position and restore the
most recent snapshot. -/
def pop (b : Board) : Board :=
  match b.stack with
  | st :: rest => Board.mk st rest
  | [] => b

/-- Modelled from the spec: `to_uci` — origin square name, destination
square name, and the promotion piece's lowercase letter if present. -/
def uci (m : Move) : String :=
  square_name m.from_square ++ square_name m.to_square
    ++ (match m.promotion with
        | some k => piece_symbol k
        | none => "")

/-- Whether the side to move is in check. -/
def is_check (st : BoardState) : Bool :=
  match kingSquare st st.turn with
  | some ks => isAttackedBy st st.turn.other ks
  | none => false

/-- Whether the side to move is checkmated. -/
def is_checkmate (st : BoardState) : Bool :=
  is_check st && (legal_moves st).isEmpty

/-- The trailing check/checkmate suffix of san/lan, judged on the position
after the move. -/
def checkSuffix (st2 : BoardState) : String :=
  if is_checkmate st2 then "#" else if is_check st2 then "+" else ""

/-- The "=" + uppercase letter san/lan suffix of a promotion move. -/
def promoSuffix (m : Move) : String :=
  match m.promotion with
  | some k => "=" ++ piece_symbol_upper k
  | none => ""

/-- Minimal san disambiguation of the origin square: by file, then rank,
then the full origin square, escalating only as needed among other pieces
of the same kind that can legally reach the same destination. -/
def sanDisambiguation (st : BoardState) (m : Move) (p : Piece) : String :=
  let others := (legal_moves st).filter fun m2 =>
    m2.to_square == m.to_square && m2.from_square != m.from_square
      && (match piece_at st m2.from_square with
          | some q => q.kind == p.kind
          | none => false)
  if others.isEmpty then ""
  else if others.all
      (fun m2 => squareFile m2.from_square != squareFile m.from_square) then
    String.mk [fileChar (squareFile m.from_square)]
  else if others.all
      (fun m2 => squareRank m2.from_square != squareRank m.from_square) then
    String.mk [rankChar (squareRank m.from_square)]
  else square_name m.from_square

/-- Modelled from the spec: `to_san` — short algebraic notation: piece
letter (file letter for pawn captures), minimal disambiguation, "x" on any
capture, destination, promotion suffix, check/mate suffix; castling as
"O-O"/"O-O-O". -/
def san (st : BoardState) (m : Move) : String :=
  let suffix := checkSuffix (applyMove st m)
  if is_kingside_castling st m then "O-O" ++ suffix
  else if is_queenside_castling st m then "O-O-O" ++ suffix
  else
    match piece_at st m.from_square with
    | none => ""
    | some p =>
      let cap := is_capture st m
      (if p.kind == PieceKind.pawn then
        (if cap then String.mk [fileChar (squareFile m.from_square)] ++ "x"
         else "")
          ++ square_name m.to_square ++ promoSuffix m
      else
        piece_symbol_upper p.kind ++ sanDisambiguation st m p
          ++ (if cap then "x" else "") ++ square_name m.to_square)
        ++ suffix

/-- Modelled from the spec: `to_lan` — long algebraic notation: never
abbreviates the origin square, "x" on capture and "-" otherwise, promotion
and check/mate suffixes as in san; castling as "O-O"/"O-O-O". -/
def lan (st : BoardState) (m : Move) : String :=
  let suffix := checkSuffix (applyMove st m)
  if is_kingside_castling st m then "O-O" ++ suffix
  else if is_queenside_castling st m then "O-O-O" ++ suffix
  else
    match piece_at st m.from_square with
    | none => ""
    | some p =>
      (if p.kind == PieceKind.pawn then "" else piece_symbol_upper p.kind)
        ++ square_name m.from_square
        ++ (if is_capture st m then "x" else "-")
        ++ square_name m.to_square ++ promoSuffix m ++ suffix

/-- `get_move_type` of the source: classify one (position, move) pair by
first-match-wins precedence — kingside castle, queenside castle,
en-passant, promotion-with-capture, promotion, capture, basic. -/
def get_move_type (st : BoardState) (m : Move) : String :=
  if is_kingside_castling st m then "KingSideCastle"
  else if is_queenside_castling st m then "QueenSideCastle"
  else if is_en_passant st m then "EnPassant"
  else if m.promotion.isSome then
    if is_capture st m then "PromotionCapture" else "Promotion"
  else if is_capture st m then "Capture"
  else "Basic"

/-- Lines 85-88 of the source: the captured-piece letter — the letter of
the destination square's occupant, overridden for en-passant by a pawn
letter whose case is the opposite of the moving side's. -/
def capture_field (st : BoardState) (m : Move) : Option String :=
  let capture := (piece_at st m.to_square).map Piece.symbol
  if is_en_passant st m then
    some (if st.turn == Color.white then "p" else "P")
  else capture

/-- Python's `str.upper` on an ASCII letter string: uppercase every
character. -/
def strUpper (s : String) : String :=
  String.mk (s.data.map Char.toUpper)

/-- Python's `str.lower` on an ASCII letter string: lowercase every
character. -/
def strLower (s : String) : String :=
  String.mk (s.data.map Char.toLower)

/-- Lines 79-83 of the source: the promotion letter — present only for a
promotion move, uppercased when white is to move and lowercased when black
is to move. -/
def promotion_field (st : BoardState) (m : Move) : Option String :=
  match m.promotion with
  | some k =>
    let promotion := piece_symbol k
    some (if st.turn == Color.white then strUpper promotion
          else strLower promotion)
  | none => none

/-- A JSON value, as `json.load`/`json.dump` exchange them. -/
inductive JsonV where
  | null
  | bool (v : Bool)
  | num (n : Int)
  | str (s : String)
  | arr (items : List JsonV)
  | obj (fields : List (String × JsonV))

/-- A JSON object / Python dict, as a key-value list in insertion order. -/
abbrev JObj := List (String × JsonV)

/-- Python dict read `o[k]`: the value at key `k`, if present. -/
def getItem (o : JObj) (k : String) : Option JsonV :=
  match o with
  | [] => none
  | (k2, v) :: rest => if k2 == k then some v else getItem rest k

/-- Python dict write `o[k] = v`: replace the value of an existing key in
place, else append the new key at the end. -/
def setItem (o : JObj) (k : String) (v : JsonV) : JObj :=
  match o with
  | [] => [(k, v)]
  | (k2, v2) :: rest =>
    if k2 == k then (k2, v) :: rest else (k2, v2) :: setItem rest k v

/-- An absent/present letter field as json.dump serializes it. -/
def optStr : Option String → JsonV
  | some s => .str s
  | none => .null

/-- The body of the loop in `add_test_data` (lines 74-109): for one legal
move, read the descriptive fields from the pre-move board, push the move to
serialize the resulting FEN and pop to restore the board, then build the
serialized move record; returns the record and the board as the loop leaves
it. -/
def moveJson (b : Board) (m : Move) : JsonV × Board :=
  let st := b.state
  let from_square := square_name m.from_square
  let to_square := square_name m.to_square
  let piece := ((piece_at st m.from_square).map Piece.symbol).getD ""
  let promotion := promotion_field st m
  let capture := capture_field st m
  let move_type := get_move_type st m
  let b1 := push b m
  let fen := board_fen b1.state
  let b2 := pop b1
  (JsonV.obj
    [("move", JsonV.obj
      [("from", JsonV.str from_square),
       ("to", JsonV.str to_square),
       ("piece", JsonV.str piece),
       ("capture", optStr capture),
       ("promotion", optStr promotion),
       ("type", JsonV.str move_type)]),
     ("uci", JsonV.str (uci m)),
     ("san", JsonV.str (san b2.state m)),
     ("lan", JsonV.str (lan b2.state m)),
     ("fen", JsonV.str fen)],
   b2)

/-- The loop of `add_test_data` over the legal moves, threading the board
through each iteration as the Python loop mutates and restores it. -/
def annotateAll (b : Board) : List Move → List JsonV × Board
  | [] => ([], b)
  | m :: rest =>
    let r := moveJson b m
    let rs := annotateAll r.2 rest
    (r.1 :: rs.1, rs.2)

/-- `add_test_data` of the source: read the test case's `fen`, parse it,
annotate every legal move, and store the record list under the `moves`
key. A missing `fen` key raises KeyError, a non-string or rejected FEN
raises the engine's error; both propagate. -/
def add_test_data (test : JObj) : Except Err JObj :=
  match getItem test "fen" with
  | none => .error (.keyError "fen")
  | some v =>
    match v with
    | .str fenStr =>
      match set_fen fenStr with
      | .error e => .error e
      | .ok st =>
        let b := Board.mk st []
        let loop := annotateAll b (legal_moves st)
        .ok (setItem test "moves" (.arr loop.1))
    | _ => .error (.valueError "fen is not a string")

/-- The `for test in tests: add_test_data(test)` loop of `main`: annotate
every test case, propagating the first error. -/
def processTests : List JObj → Except Err (List JObj)
  | [] => .ok []
  | t :: rest =>
    match add_test_data t with
    | .error e => .error e
    | .ok t2 =>
      match processTests rest with
      | .error e => .error e
      | .ok rest2 => .ok (t2 :: rest2)

/-- The externally visible file events of one run of `main`. -/
inductive Ev where
  | readInput
  | openOutput
deriving DecidableEq

/-- `main` of the source: read and parse the input (the parse outcome of
`read_tests_definitions` is the argument — `json.load` either yields the
test list or raises), annotate every test case, and only then open and
write the output file; any error terminates the run before the output file
is opened. Returns the run's outcome and its file events in order. -/
def mainModel (parsed : Except Err (List JObj)) :
    Except Err (List JObj) × List Ev :=
  match parsed with
  | .error e => (.error e, [.readInput])
  | .ok tests =>
    match processTests tests with
    | .error e => (.error e, [.readInput])
    | .ok tests2 => (.ok tests2, [.readInput, .openOutput])

/-! ## Concrete positions and extraction helpers used by the theorems -/

/-- An empty board, white to move. -/
def emptyState : BoardState :=
  BoardState.mk (List.replicate 64 none) .white false false false false none 0 1

/-- The position a FEN parses to (the empty board for a rejected FEN). -/
def boardOfFen (s : String) : BoardState :=
  (set_fen s).toOption.getD emptyState

/-- The standard starting position. -/
def startFen : String :=
  "rnbqkbnr/pppppppp/8/8/8/8/PPPPPPPP/RNBQKBNR w KQkq - 0 1"

/-- The starting position as a parsed board. -/
def startState : BoardState := boardOfFen startFen

/-- A position with a white pawn on e5 and a black pawn just advanced
d7-d5, en-passant rights on d6. -/
def epFen : String :=
  "rnbqkbnr/ppp1pppp/8/3pP3/8/8/PPPP1PPP/RNBQKBNR w KQkq d6 0 3"

/-- The en-passant position as a parsed board. -/
def epState : BoardState := boardOfFen epFen

/-- The en-passant capture e5xd6 (squares 36 and 43). -/
def epMove : Move := Move.mk 36 43 none

/-- A white under-promotion-shaped move a7-a8=Q (squares 48 and 56). -/
def promoMove : Move := Move.mk 48 56 (some .queen)

/-- A sparse position, kings on a1 and h1, used for cheap evaluation. -/
def tinyFen : String := "8/8/8/8/8/8/8/K6k w - - 0 1"

/-- A test-case object with extra fields, one of them already named
`moves`. -/
def tinyTest : JObj :=
  [("fen", JsonV.str tinyFen), ("name", JsonV.str "case1"),
   ("moves", JsonV.str "stale")]

/-- The payload of a successful run of `add_test_data`. -/
def exOk : Except Err JObj → JObj
  | .ok o => o
  | .error _ => []

/-- The name of the first true condition, else the default: first match
wins. -/
def firstMatch : List (Bool × String) → String → String
  | [], d => d
  | (c, name) :: rest, d => if c then name else firstMatch rest d

/-- The seven classification names, in precedence order. -/
def moveTypeNames : List String :=
  ["KingSideCastle", "QueenSideCastle", "EnPassant", "PromotionCapture",
   "Promotion", "Capture", "Basic"]

/-- The `type` field inside the `move` object of a serialized record. -/
def recordType (j : JsonV) : Option JsonV :=
  match j with
  | .obj fields =>
    match getItem fields "move" with
    | some (.obj mf) => getItem mf "type"
    | _ => none
  | _ => none

/-- The record list a processed test case stores under `moves`. -/
def movesOf (t : JObj) : Option (List JsonV) :=
  match getItem t "moves" with
  | some (.arr ms) => some ms
  | _ => none

/-- The classification of every record `add_test_data` produces for the
starting position. -/
def startTypes : Option (List (Option JsonV)) :=
  match add_test_data [("fen", JsonV.str startFen)] with
  | .ok out => (movesOf out).map fun ms => ms.map recordType
  | .error _ => none

/-- The top-level keys of a serialized record. -/
def jsonKeys : JsonV → Option (List String)
  | .obj fs => some (fs.map Prod.fst)
  | _ => none

/-- The keys of the `move` object inside a serialized record. -/
def innerMoveKeys (j : JsonV) : Option (List String) :=
  match j with
  | .obj fs =>
    match getItem fs "move" with
    | some (.obj mf) => some (mf.map Prod.fst)
    | _ => none
  | _ => none

/-! ## Shared lemmas -/

/-- The loop body hands back exactly the board it was given: the `pop`
after the FEN probe restores the snapshot that `push` saved. -/
theorem moveJson_restores (b : Board) (m : Move) : (moveJson b m).2 = b := rfl

/-- The annotation loop is the pure map of the loop body over the pre-move
board: the board after the loop is the board before it, and every record
is computed against that same board. -/
theorem annotateAll_eq_map (b : Board) (ms : List Move) :
    annotateAll b ms = (ms.map fun m => (moveJson b m).1, b) := by
  induction ms with
  | nil => rfl
  | cons m rest ih => simp [annotateAll, moveJson_restores, ih]

/-- A square name is two characters long. -/
theorem square_name_length (s : Nat) : (square_name s).length = 2 := rfl

/-- A piece-kind letter is one character long. -/
theorem piece_symbol_length (k : PieceKind) : (piece_symbol k).length = 1 := by
  cases k <;> rfl

/-- Writing one dict key leaves every other key's value unchanged. -/
theorem getItem_setItem_ne (o : JObj) (k kset : String) (v : JsonV)
    (h : k ≠ kset) : getItem (setItem o kset v) k = getItem o k := by
  have hne : (kset == k) = false := beq_eq_false_iff_ne.mpr fun hh => h hh.symm
  induction o with
  | nil => simp [setItem, getItem, hne]
  | cons kv rest ih =>
    obtain ⟨k2, v2⟩ := kv
    cases hk : k2 == kset with
    | true =>
      have hkk : (k2 == k) = false := by
        cases hb : k2 == k with
        | true => exact absurd ((eq_of_beq hb).symm.trans (eq_of_beq hk)) h
        | false => rfl
      simp [setItem, getItem, hk, hkk]
    | false =>
      cases hkk : k2 == k <;> simp [setItem, getItem, hk, hkk, ih]

/-- A successful `add_test_data` only writes the `moves` key of its test
case. -/
theorem add_test_data_ok_shape (test out : JObj)
    (h : add_test_data test = .ok out) :
    ∃ x, out = setItem test "moves" x := by
  cases hf : getItem test "fen" with
  | none => simp [add_test_data, hf] at h
  | some v =>
    cases v with
    | str s =>
      cases hs : set_fen s with
      | error e => simp [add_test_data, hf, hs] at h
      | ok st =>
        simp [add_test_data, hf, hs] at h
        exact ⟨_, h.symm⟩
    | null => simp [add_test_data, hf] at h
    | bool v => simp [add_test_data, hf] at h
    | num n => simp [add_test_data, hf] at h
    | arr l => simp [add_test_data, hf] at h
    | obj l => simp [add_test_data, hf] at h

/-- A test case without a `fen` key makes `add_test_data` raise KeyError. -/
theorem add_test_data_missing_fen (t : JObj) (h : getItem t "fen" = none) :
    add_test_data t = .error (.keyError "fen") := by
  simp [add_test_data, h]

/-- A test case whose FEN the engine rejects makes `add_test_data`
propagate the engine's error. -/
theorem add_test_data_bad_fen (t : JObj) (s : String) (e : Err)
    (h1 : getItem t "fen" = some (.str s)) (h2 : set_fen s = .error e) :
    add_test_data t = .error e := by
  simp [add_test_data, h1, h2]

/-- If annotating any test case of the list fails, the whole loop fails. -/
theorem processTests_error_of_mem (tests : List JObj) (t : JObj) (e : Err)
    (he : add_test_data t = .error e) :
    t ∈ tests → ∃ e2, processTests tests = .error e2 := by
  induction tests with
  | nil => intro ht; cases ht
  | cons t0 rest ih =>
    intro ht
    cases h0 : add_test_data t0 with
    | error e0 => exact ⟨e0, by simp [processTests, h0]⟩
    | ok t2 =>
      rcases List.mem_cons.mp ht with h | hmem
      · rw [h] at he; rw [he] at h0; exact Except.noConfusion h0
      · obtain ⟨e2, h2⟩ := ih hmem
        exact ⟨e2, by simp [processTests, h0, h2]⟩

/-! ## The claims -/

/-- C1: the classifier assigns exactly one of the seven category names —
`KingSideCastle`, `QueenSideCastle`, `EnPassant`, `PromotionCapture`,
`Promotion`, `Capture`, `Basic` — and its value is the first match in
exactly that precedence order over the castle, en-passant, promotion and
capture conditions. -/
theorem get_move_type_seven_categories_first_match
    (st : BoardState) (m : Move) :
    get_move_type st m ∈ moveTypeNames ∧
    get_move_type st m = firstMatch
      [(is_kingside_castling st m, "KingSideCastle"),
       (is_queenside_castling st m, "QueenSideCastle"),
       (is_en_passant st m, "EnPassant"),
       (m.promotion.isSome && is_capture st m, "PromotionCapture"),
       (m.promotion.isSome, "Promotion"),
       (is_capture st m, "Capture")] "Basic" := by
  have he : get_move_type st m = firstMatch
      [(is_kingside_castling st m, "KingSideCastle"),
       (is_queenside_castling st m, "QueenSideCastle"),
       (is_en_passant st m, "EnPassant"),
       (m.promotion.isSome && is_capture st m, "PromotionCapture"),
       (m.promotion.isSome, "Promotion"),
       (is_capture st m, "Capture")] "Basic" := by
    cases hk : is_kingside_castling st m <;>
    cases hq : is_queenside_castling st m <;>
    cases hep : is_en_passant st m <;>
    cases hp : m.promotion.isSome <;>
    cases hc : is_capture st m <;>
      simp [get_move_type, firstMatch, hk, hq, hep, hp, hc]
  refine ⟨?_, he⟩
  rw [he]
  cases hk : is_kingside_castling st m <;>
  cases hq : is_queenside_castling st m <;>
  cases hep : is_en_passant st m <;>
  cases hp : m.promotion.isSome <;>
  cases hc : is_capture st m <;>
    simp [firstMatch, hk, hq, hep, hp, hc, moveTypeNames]

/-- C2: the captured-piece letter of an en-passant move is a pawn letter
of the side not moving, determined by the moving side alone (lowercase
`p` when white moves, uppercase `P` when black moves) and not read from
the destination square; for every other move it is the letter of the
destination square's occupant in the pre-move position, and absent when
that square is empty. -/
theorem capture_field_by_classification (st : BoardState) (m : Move) :
    (is_en_passant st m = true →
      capture_field st m =
        some (if st.turn == Color.white then "p" else "P")) ∧
    (is_en_passant st m = false →
      capture_field st m = (piece_at st m.to_square).map Piece.symbol) := by
  constructor <;> intro h <;> simp [capture_field, h]

/-- C2 witness: in the en-passant position, e5xd6 is flagged en-passant
and its captured letter is the lowercase black pawn, although square d6 is
empty; a quiet opening move has no captured letter. -/
theorem capture_field_by_classification_witness :
    is_en_passant epState epMove = true ∧
    capture_field epState epMove = some "p" ∧
    is_en_passant startState (Move.mk 12 28 none) = false ∧
    capture_field startState (Move.mk 12 28 none) = none := by
  have h1 : is_en_passant epState epMove = true := by rfl
  have h2 : is_en_passant startState (Move.mk 12 28 none) = false := by rfl
  refine ⟨h1, ?_, h2, ?_⟩
  · rw [(capture_field_by_classification epState epMove).1 h1]; rfl
  · rw [(capture_field_by_classification startState (Move.mk 12 28 none)).2 h2]
    rfl

/-- C3: on the standard starting position, `add_test_data` stores exactly
20 serialized move records and the classification of every one of them is
`Basic`. -/
theorem start_position_twenty_basic_moves :
    startTypes = some (List.replicate 20 (some (JsonV.str "Basic"))) := by
  rfl

/-- C4: the apply-then-discard step restores the exact pre-move position —
`pop` after `push` is the identity on the board, the loop body returns the
board it received, and the whole annotation loop equals the pure map of
the loop body over the initial board, so every field and every later move
is evaluated against the unmutated pre-move position. -/
theorem push_pop_restores_position (b : Board) (m : Move)
    (ms : List Move) :
    pop (push b m) = b ∧
    (moveJson b m).2 = b ∧
    annotateAll b ms = (ms.map fun m2 => (moveJson b m2).1, b) :=
  ⟨rfl, moveJson_restores b m, annotateAll_eq_map b ms⟩

/-- C5: the promotion letter is present exactly for moves carrying a
promotion piece kind, uppercased when white is to move in the pre-move
position and lowercased when black is, and absent otherwise. -/
theorem promotion_field_case_by_side (st : BoardState) (m : Move) :
    (∀ k : PieceKind, m.promotion = some k →
      promotion_field st m =
        some (if st.turn == Color.white then strUpper (piece_symbol k)
              else strLower (piece_symbol k))) ∧
    (m.promotion = none → promotion_field st m = none) := by
  constructor
  · intro k h; simp [promotion_field, h]
  · intro h; simp [promotion_field, h]

/-- C5 witness: a queen promotion by white renders as uppercase `Q`; the
same theorem on a move without promotion yields an absent field. -/
theorem promotion_field_case_by_side_witness :
    promotion_field emptyState promoMove = some "Q" ∧
    promotion_field emptyState epMove = none := by
  constructor
  · rw [(promotion_field_case_by_side emptyState promoMove).1 .queen rfl]
    rfl
  · exact (promotion_field_case_by_side emptyState epMove).2 rfl

/-- C6: a processed test case is the input object with its `moves` key set
to the records of the legal moves, mapped in the Rules Engine's iteration
order and not re-sorted, and every record is an object with exactly the
keys `move`, `uci`, `san`, `lan`, `fen`, its `move` object with exactly
the keys `from`, `to`, `piece`, `capture`, `promotion`, `type`. -/
theorem moves_field_order_and_shape (test : JObj) (fenStr : String)
    (st : BoardState) (m : Move)
    (h1 : getItem test "fen" = some (.str fenStr))
    (h2 : set_fen fenStr = .ok st) :
    add_test_data test =
      .ok (setItem test "moves"
        (.arr ((legal_moves st).map fun m2 =>
          (moveJson (Board.mk st []) m2).1))) ∧
    jsonKeys (moveJson (Board.mk st []) m).1 =
      some ["move", "uci", "san", "lan", "fen"] ∧
    innerMoveKeys (moveJson (Board.mk st []) m).1 =
      some ["from", "to", "piece", "capture", "promotion", "type"] := by
  refine ⟨?_, rfl, rfl⟩
  simp [add_test_data, h1, h2, annotateAll_eq_map]

/-- C6 witness: the theorem instantiated on the starting position and the
move e2-e4. -/
theorem moves_field_order_and_shape_witness :
    add_test_data [("fen", JsonV.str startFen)] =
      .ok (setItem [("fen", JsonV.str startFen)] "moves"
        (.arr ((legal_moves startState).map fun m2 =>
          (moveJson (Board.mk startState []) m2).1))) ∧
    jsonKeys (moveJson (Board.mk startState []) (Move.mk 12 28 none)).1 =
      some ["move", "uci", "san", "lan", "fen"] ∧
    innerMoveKeys (moveJson (Board.mk startState []) (Move.mk 12 28 none)).1 =
      some ["from", "to", "piece", "capture", "promotion", "type"] :=
  moves_field_order_and_shape [("fen", JsonV.str startFen)] startFen
    startState (Move.mk 12 28 none) rfl rfl

/-- C7: the uci string is the origin square name, the destination square
name, and the lowercase promotion letter when one is present, so it is
exactly 5 characters for a promotion move and exactly 4 otherwise. -/
theorem uci_format_and_length (m : Move) :
    uci m = square_name m.from_square ++ square_name m.to_square
      ++ (match m.promotion with
          | some k => piece_symbol k
          | none => "") ∧
    (uci m).length = if m.promotion.isSome then 5 else 4 := by
  refine ⟨rfl, ?_⟩
  cases hp : m.promotion with
  | none => simp [uci, hp, String.length_append, square_name_length]
  | some k =>
    simp [uci, hp, String.length_append, square_name_length,
      piece_symbol_length]

/-- C8: the pipeline is deterministic — two runs on the same parsed input
produce identical outcomes, record lists (with every classification,
notation string and resulting FEN) and event traces. -/
theorem pipeline_deterministic (input input2 : Except Err (List JObj))
    (h : input = input2) : mainModel input = mainModel input2 := by
  rw [h]

/-- C8 witness: two runs on the starting-position test list agree. -/
theorem pipeline_deterministic_witness :
    mainModel (.ok [[("fen", JsonV.str startFen)]]) =
      mainModel (.ok [[("fen", JsonV.str startFen)]]) :=
  pipeline_deterministic (.ok [[("fen", JsonV.str startFen)]])
    (.ok [[("fen", JsonV.str startFen)]]) rfl

/-- C9: when the input fails to parse, a test case has no `fen` key, or a
FEN is rejected by the engine, the run ends in an error and the output
file is never opened — the output event only follows a run in which every
test case was processed. -/
theorem fatal_errors_write_no_output (parsed : Except Err (List JObj))
    (h : (∃ e, parsed = .error e) ∨
      (∃ tests t, parsed = .ok tests ∧ t ∈ tests
        ∧ getItem t "fen" = none) ∨
      (∃ tests t s e, parsed = .ok tests ∧ t ∈ tests
        ∧ getItem t "fen" = some (.str s) ∧ set_fen s = .error e)) :
    (∃ e2, (mainModel parsed).1 = .error e2) ∧
      Ev.openOutput ∉ (mainModel parsed).2 := by
  rcases h with ⟨e, rfl⟩ | ⟨tests, t, rfl, ht, hf⟩
    | ⟨tests, t, s, e, rfl, ht, hf, hs⟩
  · exact ⟨⟨e, rfl⟩, by simp [mainModel]⟩
  · obtain ⟨e2, h2⟩ :=
      processTests_error_of_mem tests t _ (add_test_data_missing_fen t hf) ht
    exact ⟨⟨e2, by simp [mainModel, h2]⟩, by simp [mainModel, h2]⟩
  · obtain ⟨e2, h2⟩ :=
      processTests_error_of_mem tests t _ (add_test_data_bad_fen t s e hf hs) ht
    exact ⟨⟨e2, by simp [mainModel, h2]⟩, by simp [mainModel, h2]⟩

/-- C9 witness: a malformed-JSON read ends in an error with no output
event. -/
theorem fatal_errors_write_no_output_witness :
    (∃ e2, (mainModel (.error (.jsonDecodeError "bad"))).1 = .error e2) ∧
      Ev.openOutput ∉ (mainModel (.error (.jsonDecodeError "bad"))).2 :=
  fatal_errors_write_no_output (.error (.jsonDecodeError "bad"))
    (Or.inl ⟨.jsonDecodeError "bad", rfl⟩)

/-- C10: every input field other than `moves` is passed through to the
output object unchanged, also when the input object already holds a
`moves` field (which is overwritten in place). -/
theorem passthrough_other_fields (test out : JObj) (k : String)
    (hk : k ≠ "moves") (h : add_test_data test = .ok out) :
    getItem out k = getItem test k := by
  obtain ⟨x, rfl⟩ := add_test_data_ok_shape test out h
  exact getItem_setItem_ne test k "moves" x hk

/-- C10 witness: on a test case that already carries `name` and `moves`
fields, the `name` field survives unchanged. -/
theorem passthrough_other_fields_witness :
    getItem (exOk (add_test_data tinyTest)) "name" = getItem tinyTest "name" :=
  passthrough_other_fields tinyTest (exOk (add_test_data tinyTest)) "name"
    (by decide) (by rfl)

end ChessGen
